import Mathlib

/-!
Shallow embedding of the `uniflow` unidirectional-dataflow store
(`src/lib.rs`): a bounded action queue feeding a single reducer task,
an equality-elided state commit, store/reader watchers, a memoised
selector, and effects that re-dispatch through a cloned sender.

The reactive primitives (`RwSignal`, `Memo`, `reactive_graph::effect::Effect::watch`,
`Owner`) and the `futures` bounded mpsc channel are external crates; their
behaviour is modelled from the spec (sections 3 and 4.3: equality-based
change detection, lazy memo evaluation, immediate=false watchers, scope
cleanup) and from the documented futures-mpsc contract (each sender clone
carries one guaranteed slot; a sender parks when its send pushes the
message count beyond the buffer, and an idle parked sender's try_send
fails with a "full" error; a receive unparks a parked sender).

A watcher callback is modelled by its observable trace: the list of
values delivered to it. The model packages a store together with one
reader (selector memo plus reader watch scope); the reader never
influences the store's state or queue evolution, so this loses no
generality for the claims.
-/

/-- One registered watcher (`reactive_graph::effect::Effect::watch` with
`immediate = false`). `active` is false once its watch scope has been
cleaned up; `lastSeen` is the value its tracked read last produced;
`delivered` is the trace of values passed to the user callback. -/
structure Watcher (T : Type) where
  active : Bool
  lastSeen : T
  delivered : List T
  deriving DecidableEq, Repr

/-- Deliver a committed value `v` to a watcher: the callback runs only for
an active watcher whose tracked read yields a value unequal to the last
delivered one (spec: subsequent passes of a watcher). -/
def notifyWatcher {T : Type} [DecidableEq T] (v : T) (w : Watcher T) : Watcher T :=
  if w.active then
    if v = w.lastSeen then w
    else { active := true, lastSeen := v, delivered := w.delivered ++ [v] }
  else w

/-- Modelled from the spec: a memoised selector (`reactive_graph::computed::Memo`).
Recomputes lazily on read when dirty; after recomputing it compares the
new derived value with the cached one and propagates only on change. -/
structure Memo (S T : Type) where
  compute : S → T
  cache : T
  dirty : Bool

/-- Read the memo (both `get` and `get_untracked` force a recomputation
when the memo is dirty). Returns the value and the updated memo. -/
def Memo.read {S T : Type} (m : Memo S T) (st : S) : T × Memo S T :=
  if m.dirty then
    let v := m.compute st
    (v, { m with cache := v, dirty := false })
  else (m.cache, m)

/-- `Effect<A, D>` from `src/lib.rs`: either `none` or a one-shot
computation run with a `Context`. In the embedding an effect is reduced
to its observable behaviour: the actions it dispatches through the
context, as a function of the injected deps. -/
structure Effect (A D : Type) where
  inner : Option (D → List A)

/-- `Effect::none()`: the inert effect. -/
def Effect.none {A D : Type} : Effect A D := { inner := Option.none }

/-- Outcome of `futures::channel::mpsc::Sender::try_send`. -/
inductive SendResult : Type where
  | ok : SendResult
  | errFull : SendResult
  | errDisconnected : SendResult
  deriving DecidableEq, Repr

/-- Modelled futures-mpsc bounded `try_send`: fails with `errDisconnected`
when the channel is closed; fails with `errFull` exactly when the sending
handle is parked (its previous send pushed the message count beyond the
buffer and no receive has unparked it since); otherwise the message is
appended to the FIFO. -/
def chanTrySend {A : Type} (closed : Bool) (parked : Bool) (queue : List A) (a : A) :
    SendResult × List A :=
  if closed then (SendResult.errDisconnected, queue)
  else if parked then (SendResult.errFull, queue)
  else (SendResult.ok, queue ++ [a])

/-- A sender parks itself after a send that leaves more messages buffered
than the configured capacity (the "guaranteed slot" accounting of the
futures bounded channel). -/
def parkAfter (cap : Nat) (len : Nat) : Bool := decide (len > cap)

/-- The store model: `Store<S, A, D>` from `src/lib.rs` together with one
`Reader<T>` derived from it. `state` is the `RwSignal` contents; `queue`,
`capacity`, `closed`, `senderParked` model the bounded mpsc channel and
the store's own `Sender` handle; `reducer` and `deps` are captured by the
spawned reducer loop; `storeWatchers` is the store's watch scope;
`memo` and `readerWatchers` are the reader's memo and watch scope.
`debugAssertFailed` records whether `handle_dispatch_result` ever hit its
`debug_assert!(!e.is_full())`. -/
structure Store (S A D T : Type) where
  state : S
  reducer : S → A → S × Effect A D
  deps : D
  queue : List A
  capacity : Nat
  closed : Bool
  senderParked : Bool
  debugAssertFailed : Bool
  storeWatchers : List (Watcher S)
  memo : Memo S T
  readerWatchers : List (Watcher T)

/-- `Store::new_with_deps_and_capacity`: fresh channel of the given
capacity, initial state in the signal, empty watch scopes. The reader
slot is initialised with selector `sel` (a freshly created memo first
evaluates on its creating read, so its cache holds `sel` of the current
state and is clean). -/
def Store.newWithDepsAndCapacity {S A D T : Type}
    (s0 : S) (red : S → A → S × Effect A D) (deps : D) (cap : Nat) (sel : S → T) :
    Store S A D T :=
  { state := s0
    reducer := red
    deps := deps
    queue := []
    capacity := cap
    closed := false
    senderParked := false
    debugAssertFailed := false
    storeWatchers := []
    memo := { compute := sel, cache := sel s0, dirty := false }
    readerWatchers := [] }

/-- `Store::new_with_deps`: default capacity 128. -/
def Store.newWithDeps {S A D T : Type}
    (s0 : S) (red : S → A → S × Effect A D) (deps : D) (sel : S → T) : Store S A D T :=
  Store.newWithDepsAndCapacity s0 red deps 128 sel

/-- `Store::new_with_capacity`: wraps a plain reducer into an effect
reducer returning `Effect::none()`, with unit deps. -/
def Store.newWithCapacity {S A T : Type}
    (s0 : S) (red : S → A → S) (cap : Nat) (sel : S → T) : Store S A Unit T :=
  Store.newWithDepsAndCapacity s0 (fun s a => (red s a, Effect.none)) () cap sel

/-- `Store::new`: plain reducer, default capacity 128, unit deps. -/
def Store.new {S A T : Type} (s0 : S) (red : S → A → S) (sel : S → T) : Store S A Unit T :=
  Store.newWithCapacity s0 red 128 sel

/-- `handle_dispatch_result` (`src/lib.rs:257`): `Ok` and a closed channel
are silently ignored; a full queue trips `debug_assert!(!e.is_full())`. -/
def handleDispatchResult {S A D T : Type} (r : SendResult) (m : Store S A D T) :
    Store S A D T :=
  match r with
  | SendResult.errFull => { m with debugAssertFailed := true }
  | _ => m

/-- `Store::dispatch`: `try_send` on the store's own long-lived sender
handle, then `handle_dispatch_result`. A successful send re-evaluates the
handle's parked status. -/
def Store.dispatch {S A D T : Type} (m : Store S A D T) (a : A) : Store S A D T :=
  match chanTrySend m.closed m.senderParked m.queue a with
  | (SendResult.ok, q) => { m with queue := q, senderParked := parkAfter m.capacity q.length }
  | (res, _) => handleDispatchResult res m

/-- `Context::dispatch` (`src/lib.rs:54`): clones the sender on every call
before `try_send`; a fresh clone has never parked, so the parked check is
passed with `false`. The clone is dropped right after the send. -/
def Store.ctxDispatch {S A D T : Type} (m : Store S A D T) (a : A) : Store S A D T :=
  match chanTrySend m.closed false m.queue a with
  | (SendResult.ok, q) => { m with queue := q }
  | (res, _) => handleDispatchResult res m

/-- Dispatch a whole sequence of actions, in order, on the store handle. -/
def Store.dispatchAll {S A D T : Type} (m : Store S A D T) (as : List A) : Store S A D T :=
  as.foldl Store.dispatch m

/-- `Store::shutdown`: close the channel; buffered actions remain for the
reducer loop to drain. -/
def Store.shutdown {S A D T : Type} (m : Store S A D T) : Store S A D T :=
  { m with closed := true }

/-- Commit of a new state by the reducer loop (`reducer_state.set(new_state)`),
with the spec's reactive semantics: a write equal to the current value is
elided entirely; otherwise store watchers run against the new value, the
memo is marked dirty, and — when the reader watch scope holds a live
watcher that pulls it — the memo recomputes, propagating to reader
watchers only when the derived value changed. -/
def Store.commit {S A D T : Type} [DecidableEq S] [DecidableEq T]
    (m : Store S A D T) (s' : S) : Store S A D T :=
  if s' = m.state then m
  else if m.readerWatchers.any (fun w => w.active) then
    if m.memo.compute s' = m.memo.cache then
      { m with state := s', storeWatchers := m.storeWatchers.map (notifyWatcher s'),
               memo := { m.memo with dirty := false } }
    else
      { m with state := s', storeWatchers := m.storeWatchers.map (notifyWatcher s'),
               memo := { m.memo with cache := m.memo.compute s', dirty := false },
               readerWatchers := m.readerWatchers.map (notifyWatcher (m.memo.compute s')) }
  else
    { m with state := s', storeWatchers := m.storeWatchers.map (notifyWatcher s'),
             memo := { m.memo with dirty := true } }

/-- One iteration of the reducer loop (`src/lib.rs:141`): await the next
action (consuming it unparks a parked sender), apply the reducer to the
untracked current state, commit the new state, then run the returned
effect with a `Context` whose sender is a fresh clone of the same
channel's sender — each action the effect dispatches goes through
`Context::dispatch`. An empty queue leaves the loop suspended. -/
def Store.step {S A D T : Type} [DecidableEq S] [DecidableEq T]
    (m : Store S A D T) : Store S A D T :=
  match m.queue with
  | [] => m
  | a :: rest =>
      match (m.reducer m.state a).2.inner with
      | Option.none =>
          Store.commit { m with queue := rest, senderParked := false } (m.reducer m.state a).1
      | Option.some f =>
          (f m.deps).foldl Store.ctxDispatch
            (Store.commit { m with queue := rest, senderParked := false } (m.reducer m.state a).1)

/-- Run the reducer loop until the queue is empty or the fuel runs out
(the single-threaded test executor's `run_until_stalled`). -/
def Store.drain {S A D T : Type} [DecidableEq S] [DecidableEq T]
    (fuel : Nat) (m : Store S A D T) : Store S A D T :=
  match fuel with
  | 0 => m
  | Nat.succ n => if m.queue.isEmpty then m else Store.drain n m.step

/-- `Get for Store` (`src/lib.rs:196`): untracked read of the signal. -/
def Store.get {S A D T : Type} (m : Store S A D T) : S := m.state

/-- `Get for Reader` (`src/lib.rs:251`): untracked read of the memo,
forcing a recomputation when dirty. -/
def Store.readerGet {S A D T : Type} (m : Store S A D T) : T :=
  (m.memo.read m.state).1

/-- `Store::reader(selector)` (`src/lib.rs:173`): build a fresh memo over
the state signal and a fresh, empty reader watch scope. -/
def Store.reader {S A D T T' : Type} (m : Store S A D T') (sel : S → T) : Store S A D T :=
  { state := m.state
    reducer := m.reducer
    deps := m.deps
    queue := m.queue
    capacity := m.capacity
    closed := m.closed
    senderParked := m.senderParked
    debugAssertFailed := m.debugAssertFailed
    storeWatchers := m.storeWatchers
    memo := { compute := sel, cache := sel m.state, dirty := false }
    readerWatchers := [] }

/-- `Watch for Store::watch` (`src/lib.rs:203`): register a watcher under
the store's watch scope; the immediate pass reads the current state to
collect dependencies but does not invoke the callback (`immediate = false`). -/
def Store.watch {S A D T : Type} (m : Store S A D T) : Store S A D T :=
  { m with storeWatchers := m.storeWatchers ++ [{ active := true, lastSeen := m.state, delivered := [] }] }

/-- `Watch for Store::disconnect` (`src/lib.rs:218`): clean up the store's
watch scope, destroying every watcher owned by it. -/
def Store.disconnect {S A D T : Type} (m : Store S A D T) : Store S A D T :=
  { m with storeWatchers := m.storeWatchers.map (fun w => { w with active := false }) }

/-- `Watch for Reader::watch` (`src/lib.rs:231`): the immediate pass reads
the memo (forcing it when dirty) to collect dependencies; no callback. -/
def Store.readerWatch {S A D T : Type} (m : Store S A D T) : Store S A D T :=
  let p := m.memo.read m.state
  { m with memo := p.2,
           readerWatchers := m.readerWatchers ++ [{ active := true, lastSeen := p.1, delivered := [] }] }

/-- `Watch for Reader::disconnect` (`src/lib.rs:246`): clean up the
reader's watch scope. -/
def Store.readerDisconnect {S A D T : Type} (m : Store S A D T) : Store S A D T :=
  { m with readerWatchers := m.readerWatchers.map (fun w => { w with active := false }) }

/-- Lift a plain reducer to the effect-reducer shape used by
`Store::new_with_capacity` (`src/lib.rs:114`). -/
def liftPlain {S A D : Type} (red : S → A → S) : S → A → S × Effect A D :=
  fun s a => (red s a, Effect.none)

/-- The effect reducer of spec scenario 5 and the
`effect_dispatches_follow_up_action` test: on `action > 0` add the action
and dispatch `action - 1` from the effect; otherwise just add. -/
def chainReducer (s a : Int) : Int × Effect Int Unit :=
  if a > 0 then (s + a, { inner := Option.some (fun _ => [a - 1]) })
  else (s + a, Effect.none)
/-- Invariant: whenever the reader's memo is clean, its cache equals its
selector applied to the current state. -/
def Store.memoOk {S A D T : Type} (m : Store S A D T) : Prop :=
  m.memo.dirty = false → m.memo.cache = m.memo.compute m.state
/-- Two stores agree on every component that drives state and queue
evolution (everything except the watch scopes and the memo). -/
def Agree {S A D T : Type} (m1 m2 : Store S A D T) : Prop :=
  m1.state = m2.state ∧ m1.queue = m2.queue ∧ m1.senderParked = m2.senderParked
    ∧ m1.closed = m2.closed ∧ m1.debugAssertFailed = m2.debugAssertFailed
    ∧ m1.capacity = m2.capacity ∧ m1.reducer = m2.reducer ∧ m1.deps = m2.deps
/-- A concrete counter store carrying one registered watcher, used to
instantiate `disconnect_severs`. -/
def counterStoreW : Store Nat Nat Unit Nat :=
  (Store.new 0 (fun s a => s + a) (fun s => s)).watch
/-- A concrete store whose own sender handle is parked: capacity 0, one
accepted dispatch. Used to instantiate the full-queue hypotheses. -/
def fullCounterStore : Store Nat Nat Unit Nat :=
  (Store.newWithCapacity 0 (fun s a => s + a) 0 (fun s => s)).dispatch 1
/-- The chain store right after `dispatch(3)`, before any processing. -/
def chainStoreDispatched : Store Int Int Unit Int :=
  (Store.newWithDepsAndCapacity (0 : Int) chainReducer () 128 (fun s => s)).dispatch 3

/-! ### Projection lemmas for `commit` -/

variable {S A D T : Type}

theorem commit_state [DecidableEq S] [DecidableEq T] (m : Store S A D T) (s' : S) :
    (m.commit s').state = s' := by
  unfold Store.commit
  split
  next h => exact h.symm
  next =>
    split
    · split <;> rfl
    · rfl

theorem commit_queue [DecidableEq S] [DecidableEq T] (m : Store S A D T) (s' : S) :
    (m.commit s').queue = m.queue := by
  unfold Store.commit
  split
  · rfl
  · split
    · split <;> rfl
    · rfl

theorem commit_closed [DecidableEq S] [DecidableEq T] (m : Store S A D T) (s' : S) :
    (m.commit s').closed = m.closed := by
  unfold Store.commit
  split
  · rfl
  · split
    · split <;> rfl
    · rfl

theorem commit_senderParked [DecidableEq S] [DecidableEq T] (m : Store S A D T) (s' : S) :
    (m.commit s').senderParked = m.senderParked := by
  unfold Store.commit
  split
  · rfl
  · split
    · split <;> rfl
    · rfl

theorem commit_debugAssertFailed [DecidableEq S] [DecidableEq T] (m : Store S A D T) (s' : S) :
    (m.commit s').debugAssertFailed = m.debugAssertFailed := by
  unfold Store.commit
  split
  · rfl
  · split
    · split <;> rfl
    · rfl

theorem commit_capacity [DecidableEq S] [DecidableEq T] (m : Store S A D T) (s' : S) :
    (m.commit s').capacity = m.capacity := by
  unfold Store.commit
  split
  · rfl
  · split
    · split <;> rfl
    · rfl

theorem commit_reducer [DecidableEq S] [DecidableEq T] (m : Store S A D T) (s' : S) :
    (m.commit s').reducer = m.reducer := by
  unfold Store.commit
  split
  · rfl
  · split
    · split <;> rfl
    · rfl

theorem commit_deps [DecidableEq S] [DecidableEq T] (m : Store S A D T) (s' : S) :
    (m.commit s').deps = m.deps := by
  unfold Store.commit
  split
  · rfl
  · split
    · split <;> rfl
    · rfl

theorem commit_memo_compute [DecidableEq S] [DecidableEq T] (m : Store S A D T) (s' : S) :
    (m.commit s').memo.compute = m.memo.compute := by
  unfold Store.commit
  split
  · rfl
  · split
    · split <;> rfl
    · rfl

/-! ### Projection lemmas for the two dispatch paths -/

theorem ctxDispatch_eq (m : Store S A D T) (a : A) :
    m.ctxDispatch a = if m.closed then m else { m with queue := m.queue ++ [a] } := by
  unfold Store.ctxDispatch chanTrySend
  by_cases h : m.closed = true
  · simp [h, handleDispatchResult]
  · simp only [Bool.not_eq_true] at h
    simp [h]

theorem ctxDispatch_queue (m : Store S A D T) (a : A) :
    (m.ctxDispatch a).queue = if m.closed then m.queue else m.queue ++ [a] := by
  rw [ctxDispatch_eq]; split <;> rfl

theorem ctxDispatch_state (m : Store S A D T) (a : A) :
    (m.ctxDispatch a).state = m.state := by
  rw [ctxDispatch_eq]; split <;> rfl

theorem ctxDispatch_closed (m : Store S A D T) (a : A) :
    (m.ctxDispatch a).closed = m.closed := by
  rw [ctxDispatch_eq]; split <;> rfl

theorem ctxDispatch_senderParked (m : Store S A D T) (a : A) :
    (m.ctxDispatch a).senderParked = m.senderParked := by
  rw [ctxDispatch_eq]; split <;> rfl

theorem ctxDispatch_debugAssertFailed (m : Store S A D T) (a : A) :
    (m.ctxDispatch a).debugAssertFailed = m.debugAssertFailed := by
  rw [ctxDispatch_eq]; split <;> rfl

theorem ctxDispatch_capacity (m : Store S A D T) (a : A) :
    (m.ctxDispatch a).capacity = m.capacity := by
  rw [ctxDispatch_eq]; split <;> rfl

theorem ctxDispatch_reducer (m : Store S A D T) (a : A) :
    (m.ctxDispatch a).reducer = m.reducer := by
  rw [ctxDispatch_eq]; split <;> rfl

theorem ctxDispatch_deps (m : Store S A D T) (a : A) :
    (m.ctxDispatch a).deps = m.deps := by
  rw [ctxDispatch_eq]; split <;> rfl

theorem ctxDispatch_memo (m : Store S A D T) (a : A) :
    (m.ctxDispatch a).memo = m.memo := by
  rw [ctxDispatch_eq]; split <;> rfl

theorem ctxDispatch_storeWatchers (m : Store S A D T) (a : A) :
    (m.ctxDispatch a).storeWatchers = m.storeWatchers := by
  rw [ctxDispatch_eq]; split <;> rfl

theorem ctxDispatch_readerWatchers (m : Store S A D T) (a : A) :
    (m.ctxDispatch a).readerWatchers = m.readerWatchers := by
  rw [ctxDispatch_eq]; split <;> rfl

theorem dispatch_eq_closed (m : Store S A D T) (a : A) (h : m.closed = true) :
    m.dispatch a = m := by
  unfold Store.dispatch chanTrySend
  simp [h, handleDispatchResult]

theorem dispatch_eq_full (m : Store S A D T) (a : A) (h : m.closed = false)
    (hp : m.senderParked = true) :
    m.dispatch a = { m with debugAssertFailed := true } := by
  unfold Store.dispatch chanTrySend
  simp [h, hp, handleDispatchResult]

theorem dispatch_eq_ok (m : Store S A D T) (a : A) (h : m.closed = false)
    (hp : m.senderParked = false) :
    m.dispatch a
      = { m with queue := m.queue ++ [a],
                 senderParked := parkAfter m.capacity (m.queue ++ [a]).length } := by
  unfold Store.dispatch chanTrySend
  simp [h, hp]

theorem dispatch_eq (m : Store S A D T) (a : A) :
    m.dispatch a
      = if m.closed then m
        else if m.senderParked then { m with debugAssertFailed := true }
        else { m with queue := m.queue ++ [a],
                      senderParked := parkAfter m.capacity (m.queue ++ [a]).length } := by
  by_cases h : m.closed = true
  · rw [dispatch_eq_closed m a h, if_pos h]
  · simp only [Bool.not_eq_true] at h
    by_cases hp : m.senderParked = true
    · rw [dispatch_eq_full m a h hp]
      simp [h, hp]
    · simp only [Bool.not_eq_true] at hp
      rw [dispatch_eq_ok m a h hp]
      simp [h, hp]

theorem dispatch_state (m : Store S A D T) (a : A) :
    (m.dispatch a).state = m.state := by
  rw [dispatch_eq]; split; · rfl
  split <;> rfl

theorem dispatch_closed (m : Store S A D T) (a : A) :
    (m.dispatch a).closed = m.closed := by
  rw [dispatch_eq]; split; · rfl
  split <;> rfl

theorem dispatch_capacity (m : Store S A D T) (a : A) :
    (m.dispatch a).capacity = m.capacity := by
  rw [dispatch_eq]; split; · rfl
  split <;> rfl

theorem dispatch_reducer (m : Store S A D T) (a : A) :
    (m.dispatch a).reducer = m.reducer := by
  rw [dispatch_eq]; split; · rfl
  split <;> rfl

theorem dispatch_deps (m : Store S A D T) (a : A) :
    (m.dispatch a).deps = m.deps := by
  rw [dispatch_eq]; split; · rfl
  split <;> rfl

theorem dispatch_memo (m : Store S A D T) (a : A) :
    (m.dispatch a).memo = m.memo := by
  rw [dispatch_eq]; split; · rfl
  split <;> rfl

theorem dispatch_storeWatchers (m : Store S A D T) (a : A) :
    (m.dispatch a).storeWatchers = m.storeWatchers := by
  rw [dispatch_eq]; split; · rfl
  split <;> rfl

theorem dispatch_readerWatchers (m : Store S A D T) (a : A) :
    (m.dispatch a).readerWatchers = m.readerWatchers := by
  rw [dispatch_eq]; split; · rfl
  split <;> rfl

/-! ### `dispatchAll` preservation lemmas -/

theorem dispatchAll_state (m : Store S A D T) (as : List A) :
    (m.dispatchAll as).state = m.state := by
  induction as generalizing m with
  | nil => rfl
  | cons a rest ih =>
      show ((m.dispatch a).dispatchAll rest).state = m.state
      rw [ih, dispatch_state]

theorem dispatchAll_closed (m : Store S A D T) (as : List A) :
    (m.dispatchAll as).closed = m.closed := by
  induction as generalizing m with
  | nil => rfl
  | cons a rest ih =>
      show ((m.dispatch a).dispatchAll rest).closed = m.closed
      rw [ih, dispatch_closed]

theorem dispatchAll_capacity (m : Store S A D T) (as : List A) :
    (m.dispatchAll as).capacity = m.capacity := by
  induction as generalizing m with
  | nil => rfl
  | cons a rest ih =>
      show ((m.dispatch a).dispatchAll rest).capacity = m.capacity
      rw [ih, dispatch_capacity]

theorem dispatchAll_reducer (m : Store S A D T) (as : List A) :
    (m.dispatchAll as).reducer = m.reducer := by
  induction as generalizing m with
  | nil => rfl
  | cons a rest ih =>
      show ((m.dispatch a).dispatchAll rest).reducer = m.reducer
      rw [ih, dispatch_reducer]

theorem dispatchAll_deps (m : Store S A D T) (as : List A) :
    (m.dispatchAll as).deps = m.deps := by
  induction as generalizing m with
  | nil => rfl
  | cons a rest ih =>
      show ((m.dispatch a).dispatchAll rest).deps = m.deps
      rw [ih, dispatch_deps]

theorem dispatchAll_memo (m : Store S A D T) (as : List A) :
    (m.dispatchAll as).memo = m.memo := by
  induction as generalizing m with
  | nil => rfl
  | cons a rest ih =>
      show ((m.dispatch a).dispatchAll rest).memo = m.memo
      rw [ih, dispatch_memo]

theorem dispatchAll_storeWatchers (m : Store S A D T) (as : List A) :
    (m.dispatchAll as).storeWatchers = m.storeWatchers := by
  induction as generalizing m with
  | nil => rfl
  | cons a rest ih =>
      show ((m.dispatch a).dispatchAll rest).storeWatchers = m.storeWatchers
      rw [ih, dispatch_storeWatchers]

theorem dispatchAll_readerWatchers (m : Store S A D T) (as : List A) :
    (m.dispatchAll as).readerWatchers = m.readerWatchers := by
  induction as generalizing m with
  | nil => rfl
  | cons a rest ih =>
      show ((m.dispatch a).dispatchAll rest).readerWatchers = m.readerWatchers
      rw [ih, dispatch_readerWatchers]

/-- When the channel is open, the handle's parked status tracks the queue
length, and the whole action sequence still fits the capacity plus the
handle's one guaranteed slot, every dispatch is accepted in order. -/
theorem dispatchAll_ok (as : List A) (m : Store S A D T)
    (hc : m.closed = false)
    (hp : m.senderParked = parkAfter m.capacity m.queue.length)
    (hlen : m.queue.length + as.length ≤ m.capacity + 1) :
    (m.dispatchAll as).queue = m.queue ++ as
      ∧ (m.dispatchAll as).debugAssertFailed = m.debugAssertFailed := by
  induction as generalizing m with
  | nil => exact ⟨by simp [Store.dispatchAll], rfl⟩
  | cons a rest ih =>
      have hq : m.queue.length ≤ m.capacity := by
        simp only [List.length_cons] at hlen
        omega
      have hp' : m.senderParked = false := by
        rw [hp]
        unfold parkAfter
        simp
        omega
      have hstep := dispatch_eq_ok m a hc hp'
      have h1 : ((m.dispatch a).dispatchAll rest).queue = (m.dispatch a).queue ++ rest
          ∧ ((m.dispatch a).dispatchAll rest).debugAssertFailed
              = (m.dispatch a).debugAssertFailed := by
        apply ih
        · rw [hstep]; exact hc
        · rw [hstep]
        · rw [hstep]
          simp only [List.length_append, List.length_cons] at hlen ⊢
          simp only [List.length_nil]
          omega
      refine ⟨?_, ?_⟩
      · show ((m.dispatch a).dispatchAll rest).queue = m.queue ++ a :: rest
        rw [h1.1, hstep]
        simp
      · show ((m.dispatch a).dispatchAll rest).debugAssertFailed = m.debugAssertFailed
        rw [h1.2, hstep]

/-! ### Reducer-loop step equations -/

theorem step_eq_nil [DecidableEq S] [DecidableEq T] (m : Store S A D T)
    (h : m.queue = []) : m.step = m := by
  unfold Store.step
  rw [h]

theorem step_eq_cons_none [DecidableEq S] [DecidableEq T] (m : Store S A D T)
    (a : A) (rest : List A) (h : m.queue = a :: rest)
    (he : (m.reducer m.state a).2.inner = Option.none) :
    m.step = Store.commit { m with queue := rest, senderParked := false }
               (m.reducer m.state a).1 := by
  unfold Store.step
  simp only [h, he]

theorem step_eq_cons_some [DecidableEq S] [DecidableEq T] (m : Store S A D T)
    (a : A) (rest : List A) (f : D → List A) (h : m.queue = a :: rest)
    (he : (m.reducer m.state a).2.inner = Option.some f) :
    m.step = (f m.deps).foldl Store.ctxDispatch
               (Store.commit { m with queue := rest, senderParked := false }
                 (m.reducer m.state a).1) := by
  unfold Store.step
  simp only [h, he]

/-! ### Effect-dispatch folds preserve everything but the queue -/

theorem foldlCtx_reducer (l : List A) (m : Store S A D T) :
    (l.foldl Store.ctxDispatch m).reducer = m.reducer := by
  induction l generalizing m with
  | nil => rfl
  | cons a rest ih => show (List.foldl _ (m.ctxDispatch a) rest).reducer = _
                      rw [ih, ctxDispatch_reducer]

theorem foldlCtx_deps (l : List A) (m : Store S A D T) :
    (l.foldl Store.ctxDispatch m).deps = m.deps := by
  induction l generalizing m with
  | nil => rfl
  | cons a rest ih => show (List.foldl _ (m.ctxDispatch a) rest).deps = _
                      rw [ih, ctxDispatch_deps]

theorem foldlCtx_capacity (l : List A) (m : Store S A D T) :
    (l.foldl Store.ctxDispatch m).capacity = m.capacity := by
  induction l generalizing m with
  | nil => rfl
  | cons a rest ih => show (List.foldl _ (m.ctxDispatch a) rest).capacity = _
                      rw [ih, ctxDispatch_capacity]

theorem foldlCtx_closed (l : List A) (m : Store S A D T) :
    (l.foldl Store.ctxDispatch m).closed = m.closed := by
  induction l generalizing m with
  | nil => rfl
  | cons a rest ih => show (List.foldl _ (m.ctxDispatch a) rest).closed = _
                      rw [ih, ctxDispatch_closed]

theorem foldlCtx_state (l : List A) (m : Store S A D T) :
    (l.foldl Store.ctxDispatch m).state = m.state := by
  induction l generalizing m with
  | nil => rfl
  | cons a rest ih => show (List.foldl _ (m.ctxDispatch a) rest).state = _
                      rw [ih, ctxDispatch_state]

theorem foldlCtx_senderParked (l : List A) (m : Store S A D T) :
    (l.foldl Store.ctxDispatch m).senderParked = m.senderParked := by
  induction l generalizing m with
  | nil => rfl
  | cons a rest ih => show (List.foldl _ (m.ctxDispatch a) rest).senderParked = _
                      rw [ih, ctxDispatch_senderParked]

theorem foldlCtx_debugAssertFailed (l : List A) (m : Store S A D T) :
    (l.foldl Store.ctxDispatch m).debugAssertFailed = m.debugAssertFailed := by
  induction l generalizing m with
  | nil => rfl
  | cons a rest ih => show (List.foldl _ (m.ctxDispatch a) rest).debugAssertFailed = _
                      rw [ih, ctxDispatch_debugAssertFailed]

theorem foldlCtx_memo (l : List A) (m : Store S A D T) :
    (l.foldl Store.ctxDispatch m).memo = m.memo := by
  induction l generalizing m with
  | nil => rfl
  | cons a rest ih => show (List.foldl _ (m.ctxDispatch a) rest).memo = _
                      rw [ih, ctxDispatch_memo]

theorem foldlCtx_storeWatchers (l : List A) (m : Store S A D T) :
    (l.foldl Store.ctxDispatch m).storeWatchers = m.storeWatchers := by
  induction l generalizing m with
  | nil => rfl
  | cons a rest ih => show (List.foldl _ (m.ctxDispatch a) rest).storeWatchers = _
                      rw [ih, ctxDispatch_storeWatchers]

theorem foldlCtx_readerWatchers (l : List A) (m : Store S A D T) :
    (l.foldl Store.ctxDispatch m).readerWatchers = m.readerWatchers := by
  induction l generalizing m with
  | nil => rfl
  | cons a rest ih => show (List.foldl _ (m.ctxDispatch a) rest).readerWatchers = _
                      rw [ih, ctxDispatch_readerWatchers]

theorem foldlCtx_queue (l : List A) (m : Store S A D T) (h : m.closed = false) :
    (l.foldl Store.ctxDispatch m).queue = m.queue ++ l := by
  induction l generalizing m with
  | nil => simp
  | cons a rest ih =>
      show (List.foldl _ (m.ctxDispatch a) rest).queue = _
      rw [ih (m.ctxDispatch a) (by rw [ctxDispatch_closed]; exact h)]
      rw [ctxDispatch_queue]
      simp [h]

/-! ### Step and drain preservation -/

theorem step_reducer [DecidableEq S] [DecidableEq T] (m : Store S A D T) :
    (m.step).reducer = m.reducer := by
  cases hq : m.queue with
  | nil => rw [step_eq_nil m hq]
  | cons a rest =>
      cases he : (m.reducer m.state a).2.inner with
      | none => rw [step_eq_cons_none m a rest hq he, commit_reducer]
      | some f => rw [step_eq_cons_some m a rest f hq he, foldlCtx_reducer, commit_reducer]

theorem step_deps [DecidableEq S] [DecidableEq T] (m : Store S A D T) :
    (m.step).deps = m.deps := by
  cases hq : m.queue with
  | nil => rw [step_eq_nil m hq]
  | cons a rest =>
      cases he : (m.reducer m.state a).2.inner with
      | none => rw [step_eq_cons_none m a rest hq he, commit_deps]
      | some f => rw [step_eq_cons_some m a rest f hq he, foldlCtx_deps, commit_deps]

theorem step_capacity [DecidableEq S] [DecidableEq T] (m : Store S A D T) :
    (m.step).capacity = m.capacity := by
  cases hq : m.queue with
  | nil => rw [step_eq_nil m hq]
  | cons a rest =>
      cases he : (m.reducer m.state a).2.inner with
      | none => rw [step_eq_cons_none m a rest hq he, commit_capacity]
      | some f => rw [step_eq_cons_some m a rest f hq he, foldlCtx_capacity, commit_capacity]

theorem step_closed [DecidableEq S] [DecidableEq T] (m : Store S A D T) :
    (m.step).closed = m.closed := by
  cases hq : m.queue with
  | nil => rw [step_eq_nil m hq]
  | cons a rest =>
      cases he : (m.reducer m.state a).2.inner with
      | none => rw [step_eq_cons_none m a rest hq he, commit_closed]
      | some f => rw [step_eq_cons_some m a rest f hq he, foldlCtx_closed, commit_closed]

theorem step_memo_compute [DecidableEq S] [DecidableEq T] (m : Store S A D T) :
    (m.step).memo.compute = m.memo.compute := by
  cases hq : m.queue with
  | nil => rw [step_eq_nil m hq]
  | cons a rest =>
      cases he : (m.reducer m.state a).2.inner with
      | none => rw [step_eq_cons_none m a rest hq he, commit_memo_compute]
      | some f => rw [step_eq_cons_some m a rest f hq he, foldlCtx_memo, commit_memo_compute]

theorem drain_reducer [DecidableEq S] [DecidableEq T] (fuel : Nat) (m : Store S A D T) :
    (Store.drain fuel m).reducer = m.reducer := by
  induction fuel generalizing m with
  | zero => rfl
  | succ n ih =>
      unfold Store.drain
      split
      · rfl
      · rw [ih, step_reducer]

theorem drain_memo_compute [DecidableEq S] [DecidableEq T] (fuel : Nat) (m : Store S A D T) :
    (Store.drain fuel m).memo.compute = m.memo.compute := by
  induction fuel generalizing m with
  | zero => rfl
  | succ n ih =>
      unfold Store.drain
      split
      · rfl
      · rw [ih, step_memo_compute]

/-! ### Plain-reducer runs fold the reducer over the queue -/

theorem step_plain [DecidableEq S] [DecidableEq T] (m : Store S A D T) (red : S → A → S)
    (hr : m.reducer = liftPlain red) (a : A) (rest : List A) (hq : m.queue = a :: rest) :
    (m.step).state = red m.state a ∧ (m.step).queue = rest
      ∧ (m.step).reducer = liftPlain red := by
  have he : (m.reducer m.state a).2.inner = Option.none := by
    rw [hr]; rfl
  rw [step_eq_cons_none m a rest hq he]
  refine ⟨?_, ?_, ?_⟩
  · rw [commit_state, hr]; rfl
  · rw [commit_queue]
  · rw [commit_reducer]
    exact hr

theorem drain_plain [DecidableEq S] [DecidableEq T] (red : S → A → S) (fuel : Nat)
    (m : Store S A D T) (hr : m.reducer = liftPlain red) (hfuel : m.queue.length ≤ fuel) :
    (Store.drain fuel m).state = m.queue.foldl red m.state
      ∧ (Store.drain fuel m).queue = [] := by
  induction fuel generalizing m with
  | zero =>
      have hq : m.queue = [] := List.length_eq_zero.mp (Nat.le_zero.mp hfuel)
      simp [Store.drain, hq]
  | succ n ih =>
      cases hq : m.queue with
      | nil =>
          unfold Store.drain
          simp [hq]
      | cons a rest =>
          unfold Store.drain
          rw [hq]
          simp only [List.isEmpty_cons, Bool.false_eq_true, if_false]
          have hs := step_plain m red hr a rest hq
          have hlen : (m.step).queue.length ≤ n := by
            rw [hs.2.1]
            have := hfuel
            rw [hq] at this
            simp only [List.length_cons] at this
            omega
          have hrec := ih m.step hs.2.2 hlen
          refine ⟨?_, hrec.2⟩
          rw [hrec.1, hs.2.1, hs.1]
          rfl

/-! ### C1: determinism of dispatch-then-drain -/

set_option maxRecDepth 400000

/-- C1 (counterexample): the claim "for every pure plain reducer, initial
state, and finite action sequence, dispatching a1..an and draining leaves
get() equal to the left fold" fails as stated. With the default capacity
128, dispatching 130 actions overflows the queue: the 130th `try_send`
finds the sender parked, the action is dropped (and the
`debug_assert!(!e.is_full())` in `handle_dispatch_result` trips, so a
debug build panics), and after the drain `get()` is the fold of only the
129 accepted actions. -/
theorem determinism_fold_cex :
    ¬ ((Store.drain 130 ((Store.new (0 : Nat) (fun s a => s + a) (fun s => s)).dispatchAll
            (List.replicate 130 1))).get
          = (List.replicate 130 1).foldl (fun s a => s + a) 0)
      ∧ (Store.drain 130 ((Store.new (0 : Nat) (fun s a => s + a) (fun s => s)).dispatchAll
            (List.replicate 130 1))).debugAssertFailed = true := by
  constructor
  · decide
  · decide

/-- C1 (amended): for every pure plain reducer, initial state, and finite
action sequence that fits the queue — at most capacity + 1 actions, the
extra one being the dispatching handle's guaranteed slot — dispatching
a1..an in order on one handle and draining the queue leaves `get()` equal
to the left fold of the reducer over the sequence from the initial state
(and the queue empty). -/
theorem determinism_fold_amended {S A T : Type} [DecidableEq S] [DecidableEq T]
    (red : S → A → S) (s0 : S) (cap : Nat) (sel : S → T) (as : List A)
    (h : as.length ≤ cap + 1) :
    (Store.drain as.length ((Store.newWithCapacity s0 red cap sel).dispatchAll as)).get
        = as.foldl red s0
      ∧ (Store.drain as.length ((Store.newWithCapacity s0 red cap sel).dispatchAll as)).queue
        = [] := by
  have hp0 : parkAfter cap 0 = false := by
    unfold parkAfter
    simp
  have hpark : (Store.newWithCapacity s0 red cap sel).senderParked
      = parkAfter (Store.newWithCapacity s0 red cap sel).capacity
          (Store.newWithCapacity s0 red cap sel).queue.length := by
    show (false : Bool) = parkAfter cap 0
    exact hp0.symm
  have hlen2 : (Store.newWithCapacity s0 red cap sel).queue.length + as.length
      ≤ (Store.newWithCapacity s0 red cap sel).capacity + 1 := by
    show 0 + as.length ≤ cap + 1
    simpa using h
  have hd := dispatchAll_ok as (Store.newWithCapacity s0 red cap sel) rfl hpark hlen2
  have hq : ((Store.newWithCapacity s0 red cap sel).dispatchAll as).queue = as := by
    rw [hd.1]; rfl
  have hr : ((Store.newWithCapacity s0 red cap sel).dispatchAll as).reducer
      = liftPlain red := by
    rw [dispatchAll_reducer]; rfl
  have hlen : ((Store.newWithCapacity s0 red cap sel).dispatchAll as).queue.length
      ≤ as.length := by rw [hq]
  have hmain := drain_plain red as.length _ hr hlen
  refine ⟨?_, hmain.2⟩
  show (Store.drain as.length ((Store.newWithCapacity s0 red cap sel).dispatchAll as)).state
      = as.foldl red s0
  rw [hmain.1, hq, dispatchAll_state]
  rfl

/-- Witness for `determinism_fold_amended` at a concrete instance. -/
theorem determinism_fold_amended_witness :
    (Store.drain 3 ((Store.newWithCapacity (0 : Nat) (fun s a => s + a) 128
          (fun s => s)).dispatchAll [1, 2, 3])).get
        = [1, 2, 3].foldl (fun s a => s + a) 0
      ∧ (Store.drain 3 ((Store.newWithCapacity (0 : Nat) (fun s a => s + a) 128
          (fun s => s)).dispatchAll [1, 2, 3])).queue = [] := by
  have := determinism_fold_amended (fun s a => s + a) (0 : Nat) 128 (fun s => s) [1, 2, 3]
    (by decide)
  simpa using this

/-! ### C4: the effect chain from the spec's scenario 5 -/


/-- C4: starting from state 0 and dispatching 3, the effect chain
3 → effect(2) → effect(1) → effect(0) terminates under a full drain with
the queue empty and `get() = 6`. -/
theorem effect_chain_terminates :
    (Store.drain 5 ((Store.newWithDepsAndCapacity (0 : Int) chainReducer () 128
          (fun s => s)).dispatch 3)).get = 6
      ∧ (Store.drain 5 ((Store.newWithDepsAndCapacity (0 : Int) chainReducer () 128
          (fun s => s)).dispatch 3)).queue = [] := by
  constructor
  · decide
  · decide

/-! ### C7: the plain-reducer constructor refines the effect-reducer one -/

/-- C7: a store built with `Store::new(initial, r)` behaves identically to
one built with `new_with_deps_and_capacity` over the lifted effect reducer
`(s, a) ↦ (r s a, Effect::none())`, unit deps, and capacity 128: the two
models agree after any dispatch sequence and any amount of draining (in
the source, `new` delegates to `new_with_capacity`, which wraps the plain
reducer exactly this way). -/
theorem plain_constructor_refines_effect_constructor {S A T : Type}
    [DecidableEq S] [DecidableEq T]
    (red : S → A → S) (s0 : S) (sel : S → T) (as : List A) (fuel : Nat) :
    Store.drain fuel ((Store.new s0 red sel).dispatchAll as)
      = Store.drain fuel
          ((Store.newWithDepsAndCapacity s0 (fun s a => (red s a, Effect.none)) () 128
              sel).dispatchAll as) := rfl

/-! ### C2: equal writes are elided; watchers fire at most once per commit -/

theorem notifyWatcher_delivered_le {T : Type} [DecidableEq T] (v : T) (w : Watcher T) :
    (notifyWatcher v w).delivered.length ≤ w.delivered.length + 1 := by
  unfold notifyWatcher
  split
  · split
    · exact Nat.le_succ _
    · simp
  · exact Nat.le_succ _

theorem notifyWatcher_lastSeen_eq {T : Type} [DecidableEq T] (v : T) (w : Watcher T)
    (h : v = w.lastSeen) : notifyWatcher v w = w := by
  unfold notifyWatcher
  subst h
  simp

theorem zip_map_snd {X Y : Type} (l : List X) (f : X → Y) :
    ∀ p ∈ l.zip (l.map f), p.2 = f p.1 := by
  induction l with
  | nil => intro p hp; simp at hp
  | cons a rest ih =>
      intro p hp
      simp only [List.map_cons, List.zip_cons_cons, List.mem_cons] at hp
      cases hp with
      | inl h => subst h; rfl
      | inr h => exact ih p h

theorem zip_self_snd {X : Type} (l : List X) : ∀ p ∈ l.zip l, p.2 = p.1 := by
  induction l with
  | nil => intro p hp; simp at hp
  | cons a rest ih =>
      intro p hp
      simp only [List.zip_cons_cons, List.mem_cons] at hp
      cases hp with
      | inl h => subst h; rfl
      | inr h => exact ih p h

theorem commit_storeWatchers [DecidableEq S] [DecidableEq T] (m : Store S A D T) (s' : S) :
    (m.commit s').storeWatchers
      = if s' = m.state then m.storeWatchers
        else m.storeWatchers.map (notifyWatcher s') := by
  unfold Store.commit
  split
  · rfl
  · split
    · split <;> rfl
    · rfl

theorem commit_readerWatchers_cases [DecidableEq S] [DecidableEq T]
    (m : Store S A D T) (s' : S) :
    (m.commit s').readerWatchers = m.readerWatchers
      ∨ (m.commit s').readerWatchers
          = m.readerWatchers.map (notifyWatcher (m.memo.compute s')) := by
  unfold Store.commit
  split
  · exact Or.inl rfl
  · split
    · split
      · exact Or.inl rfl
      · exact Or.inr rfl
    · exact Or.inl rfl

/-- C2: a commit whose written value equals (by `PartialEq`) the previous
state is fully elided — the signal write compares `new == old`, so no
watcher (store-side or reader-side) fires and the model is unchanged —
and for any commit whatsoever, each registered watcher receives at most
one callback, and a store watcher whose last-delivered value equals the
committed value is untouched. -/
theorem equal_write_elided_and_single_fire [DecidableEq S] [DecidableEq T]
    (m : Store S A D T) (s' : S) :
    (s' = m.state → m.commit s' = m)
      ∧ (∀ p ∈ m.storeWatchers.zip ((m.commit s').storeWatchers),
           p.2.delivered.length ≤ p.1.delivered.length + 1
             ∧ (s' = p.1.lastSeen → p.2 = p.1))
      ∧ (∀ p ∈ m.readerWatchers.zip ((m.commit s').readerWatchers),
           p.2.delivered.length ≤ p.1.delivered.length + 1) := by
  refine ⟨?_, ?_, ?_⟩
  · intro h
    unfold Store.commit
    rw [if_pos h]
  · intro p hp
    rw [commit_storeWatchers] at hp
    by_cases h : s' = m.state
    · rw [if_pos h] at hp
      have h2 := zip_self_snd _ p hp
      rw [h2]
      exact ⟨Nat.le_succ _, fun _ => rfl⟩
    · rw [if_neg h] at hp
      have h2 := zip_map_snd _ _ p hp
      rw [h2]
      exact ⟨notifyWatcher_delivered_le _ _, fun hv => notifyWatcher_lastSeen_eq _ _ hv⟩
  · intro p hp
    cases commit_readerWatchers_cases m s' with
    | inl h =>
        rw [h] at hp
        have h2 := zip_self_snd _ p hp
        rw [h2]
        exact Nat.le_succ _
    | inr h =>
        rw [h] at hp
        have h2 := zip_map_snd _ _ p hp
        rw [h2]
        exact notifyWatcher_delivered_le _ _

/-- Witness for `equal_write_elided_and_single_fire`: a store with one
store watcher and one reader watcher, committed with its current state. -/
theorem equal_write_elided_witness :
    ((Store.new (0 : Nat) (fun s a => s + a) (fun s => s)).watch.readerWatch.commit 0
        = (Store.new (0 : Nat) (fun s a => s + a) (fun s => s)).watch.readerWatch)
      ∧ ((⟨true, 0, []⟩ : Watcher Nat), (⟨true, 0, []⟩ : Watcher Nat)).2.delivered.length
          ≤ ((⟨true, 0, []⟩ : Watcher Nat), (⟨true, 0, []⟩ : Watcher Nat)).1.delivered.length
            + 1 := by
  refine ⟨(equal_write_elided_and_single_fire _ 0).1 rfl, ?_⟩
  exact ((equal_write_elided_and_single_fire
    ((Store.new (0 : Nat) (fun s a => s + a) (fun s => s)).watch.readerWatch) 0).2.1
      _ (by decide)).1

/-! ### C3: memo freshness -/


theorem commit_memoOk [DecidableEq S] [DecidableEq T] (m : Store S A D T) (s' : S)
    (h : m.memoOk) : (m.commit s').memoOk := by
  unfold Store.memoOk at h ⊢
  unfold Store.commit
  split
  · exact h
  · split
    · split
      next h2 =>
        intro _
        exact h2.symm
      next h2 =>
        intro _
        rfl
    · intro hfalse
      simp at hfalse

theorem dispatch_memoOk (m : Store S A D T) (a : A) (h : m.memoOk) :
    (m.dispatch a).memoOk := by
  unfold Store.memoOk at h ⊢
  rw [dispatch_memo, dispatch_state]
  exact h

theorem dispatchAll_memoOk (m : Store S A D T) (as : List A) (h : m.memoOk) :
    (m.dispatchAll as).memoOk := by
  unfold Store.memoOk at h ⊢
  rw [dispatchAll_memo, dispatchAll_state]
  exact h

theorem foldlCtx_memoOk (l : List A) (m : Store S A D T) (h : m.memoOk) :
    (l.foldl Store.ctxDispatch m).memoOk := by
  unfold Store.memoOk at h ⊢
  rw [foldlCtx_memo, foldlCtx_state]
  exact h

theorem step_memoOk [DecidableEq S] [DecidableEq T] (m : Store S A D T) (h : m.memoOk) :
    (m.step).memoOk := by
  cases hq : m.queue with
  | nil => rw [step_eq_nil m hq]; exact h
  | cons a rest =>
      cases he : (m.reducer m.state a).2.inner with
      | none =>
          rw [step_eq_cons_none m a rest hq he]
          exact commit_memoOk _ _ h
      | some f =>
          rw [step_eq_cons_some m a rest f hq he]
          exact foldlCtx_memoOk _ _ (commit_memoOk _ _ h)

theorem drain_memoOk [DecidableEq S] [DecidableEq T] (fuel : Nat) (m : Store S A D T)
    (h : m.memoOk) : (Store.drain fuel m).memoOk := by
  induction fuel generalizing m with
  | zero => exact h
  | succ n ih =>
      unfold Store.drain
      split
      · exact h
      · exact ih m.step (step_memoOk m h)

theorem readerGet_eq_compute (m : Store S A D T) (h : m.memoOk) :
    m.readerGet = m.memo.compute m.state := by
  unfold Store.readerGet Memo.read
  split
  · rfl
  next h2 =>
    simp only [Bool.not_eq_true] at h2
    exact h h2

/-- C3: for every reader created from a store via `store.reader(selector)`,
after any sequence of dispatches and any amount of reducer-loop
processing, `reader.get()` equals the selector applied to `store.get()` —
the memo recomputes on read when dirty, and its cache is fresh whenever
clean. -/
theorem reader_memo_freshness {S A D T T' : Type} [DecidableEq S] [DecidableEq T]
    (m : Store S A D T') (sel : S → T) (as : List A) (fuel : Nat) :
    (Store.drain fuel ((m.reader sel).dispatchAll as)).readerGet
      = sel ((Store.drain fuel ((m.reader sel).dispatchAll as)).get) := by
  have h0 : (m.reader sel).memoOk := by
    unfold Store.memoOk Store.reader
    intro _
    rfl
  have h2 : (Store.drain fuel ((m.reader sel).dispatchAll as)).memoOk :=
    drain_memoOk fuel _ (dispatchAll_memoOk _ as h0)
  have hc : (Store.drain fuel ((m.reader sel).dispatchAll as)).memo.compute = sel := by
    rw [drain_memo_compute, dispatchAll_memo]
    rfl
  rw [readerGet_eq_compute _ h2, hc]
  rfl

/-! ### C8: registration is the immediate=false contract -/

/-- C8: registering a watcher (on the store or on a reader) runs the
tracked computation once to collect dependencies but never invokes the
user callback with that initial value — the fresh watcher's delivered
trace is empty — and a commit following registration delivers to the new
store watcher exactly the committed value when it differs from the value
read at registration, and nothing otherwise. -/
theorem watch_no_immediate_call [DecidableEq S] [DecidableEq T]
    (m : Store S A D T) (s' : S) :
    (m.watch.storeWatchers.getLast?
        = Option.some { active := true, lastSeen := m.state, delivered := [] })
      ∧ (((m.watch.commit s').storeWatchers.getLast?).map Watcher.delivered
          = Option.some (if s' = m.state then [] else [s']))
      ∧ (m.readerWatch.readerWatchers.getLast?
          = Option.some { active := true, lastSeen := (m.memo.read m.state).1,
                          delivered := [] }) := by
  refine ⟨?_, ?_, ?_⟩
  · show (m.storeWatchers ++ [_]).getLast? = _
    rw [List.getLast?_concat]
  · rw [commit_storeWatchers]
    by_cases h : s' = m.watch.state
    · have h' : s' = m.state := h
      rw [if_pos h, if_pos h']
      show ((m.storeWatchers ++ [_]).getLast?).map Watcher.delivered = _
      rw [List.getLast?_concat]
      rfl
    · have h' : ¬ s' = m.state := h
      rw [if_neg h, if_neg h']
      show (((m.storeWatchers ++ [_]).map (notifyWatcher s')).getLast?).map
          Watcher.delivered = _
      rw [List.map_append, List.map_singleton]
      rw [List.getLast?_concat]
      show Option.some (notifyWatcher s'
          { active := true, lastSeen := m.state, delivered := [] }).delivered = _
      unfold notifyWatcher
      rw [if_pos rfl, if_neg h']
      rfl
  · show (m.readerWatchers ++ [_]).getLast? = _
    rw [List.getLast?_concat]

/-! ### C5: scope cleanup machinery -/

theorem map_notifyWatcher_inactive {T0 : Type} [DecidableEq T0] (v : T0)
    (ws : List (Watcher T0)) (h : ∀ w ∈ ws, w.active = false) :
    ws.map (notifyWatcher v) = ws := by
  induction ws with
  | nil => rfl
  | cons w rest ih =>
      simp only [List.map_cons]
      have hw : w.active = false := h w (List.mem_cons_self w rest)
      have h1 : notifyWatcher v w = w := by
        unfold notifyWatcher
        simp [hw]
      rw [h1, ih (fun w2 hw2 => h w2 (List.mem_cons_of_mem _ hw2))]

theorem commit_storeWatchers_inactive [DecidableEq S] [DecidableEq T]
    (m : Store S A D T) (s' : S) (h : ∀ w ∈ m.storeWatchers, w.active = false) :
    (m.commit s').storeWatchers = m.storeWatchers := by
  rw [commit_storeWatchers]
  split
  · rfl
  · exact map_notifyWatcher_inactive _ _ h

theorem commit_readerWatchers_inactive [DecidableEq S] [DecidableEq T]
    (m : Store S A D T) (s' : S) (h : ∀ w ∈ m.readerWatchers, w.active = false) :
    (m.commit s').readerWatchers = m.readerWatchers := by
  cases commit_readerWatchers_cases m s' with
  | inl hc => exact hc
  | inr hc => rw [hc]; exact map_notifyWatcher_inactive _ _ h

theorem step_storeWatchers_inactive [DecidableEq S] [DecidableEq T]
    (m : Store S A D T) (h : ∀ w ∈ m.storeWatchers, w.active = false) :
    (m.step).storeWatchers = m.storeWatchers := by
  cases hq : m.queue with
  | nil => rw [step_eq_nil m hq]
  | cons a rest =>
      cases he : (m.reducer m.state a).2.inner with
      | none =>
          rw [step_eq_cons_none m a rest hq he]
          exact commit_storeWatchers_inactive _ _ h
      | some f =>
          rw [step_eq_cons_some m a rest f hq he, foldlCtx_storeWatchers]
          exact commit_storeWatchers_inactive _ _ h

theorem step_readerWatchers_inactive [DecidableEq S] [DecidableEq T]
    (m : Store S A D T) (h : ∀ w ∈ m.readerWatchers, w.active = false) :
    (m.step).readerWatchers = m.readerWatchers := by
  cases hq : m.queue with
  | nil => rw [step_eq_nil m hq]
  | cons a rest =>
      cases he : (m.reducer m.state a).2.inner with
      | none =>
          rw [step_eq_cons_none m a rest hq he]
          exact commit_readerWatchers_inactive _ _ h
      | some f =>
          rw [step_eq_cons_some m a rest f hq he, foldlCtx_readerWatchers]
          exact commit_readerWatchers_inactive _ _ h

theorem drain_storeWatchers_inactive [DecidableEq S] [DecidableEq T]
    (fuel : Nat) (m : Store S A D T) (h : ∀ w ∈ m.storeWatchers, w.active = false) :
    (Store.drain fuel m).storeWatchers = m.storeWatchers := by
  induction fuel generalizing m with
  | zero => rfl
  | succ n ih =>
      unfold Store.drain
      split
      · rfl
      · have hs := step_storeWatchers_inactive m h
        rw [ih m.step (by rw [hs]; exact h), hs]

theorem drain_readerWatchers_inactive [DecidableEq S] [DecidableEq T]
    (fuel : Nat) (m : Store S A D T) (h : ∀ w ∈ m.readerWatchers, w.active = false) :
    (Store.drain fuel m).readerWatchers = m.readerWatchers := by
  induction fuel generalizing m with
  | zero => rfl
  | succ n ih =>
      unfold Store.drain
      split
      · rfl
      · have hs := step_readerWatchers_inactive m h
        rw [ih m.step (by rw [hs]; exact h), hs]


theorem agree_commit [DecidableEq S] [DecidableEq T] {m1 m2 : Store S A D T}
    (h : Agree m1 m2) (s' : S) : Agree (m1.commit s') (m2.commit s') := by
  obtain ⟨h1, h2, h3, h4, h5, h6, h7, h8⟩ := h
  exact ⟨by rw [commit_state, commit_state],
         by rw [commit_queue, commit_queue]; exact h2,
         by rw [commit_senderParked, commit_senderParked]; exact h3,
         by rw [commit_closed, commit_closed]; exact h4,
         by rw [commit_debugAssertFailed, commit_debugAssertFailed]; exact h5,
         by rw [commit_capacity, commit_capacity]; exact h6,
         by rw [commit_reducer, commit_reducer]; exact h7,
         by rw [commit_deps, commit_deps]; exact h8⟩

theorem agree_ctxDispatch {m1 m2 : Store S A D T} (h : Agree m1 m2) (a : A) :
    Agree (m1.ctxDispatch a) (m2.ctxDispatch a) := by
  obtain ⟨h1, h2, h3, h4, h5, h6, h7, h8⟩ := h
  exact ⟨by rw [ctxDispatch_state, ctxDispatch_state]; exact h1,
         by rw [ctxDispatch_queue, ctxDispatch_queue, h2, h4],
         by rw [ctxDispatch_senderParked, ctxDispatch_senderParked]; exact h3,
         by rw [ctxDispatch_closed, ctxDispatch_closed]; exact h4,
         by rw [ctxDispatch_debugAssertFailed, ctxDispatch_debugAssertFailed]; exact h5,
         by rw [ctxDispatch_capacity, ctxDispatch_capacity]; exact h6,
         by rw [ctxDispatch_reducer, ctxDispatch_reducer]; exact h7,
         by rw [ctxDispatch_deps, ctxDispatch_deps]; exact h8⟩

theorem agree_foldlCtx (l : List A) {m1 m2 : Store S A D T} (h : Agree m1 m2) :
    Agree (l.foldl Store.ctxDispatch m1) (l.foldl Store.ctxDispatch m2) := by
  induction l generalizing m1 m2 with
  | nil => exact h
  | cons a rest ih =>
      show Agree (List.foldl _ (m1.ctxDispatch a) rest) (List.foldl _ (m2.ctxDispatch a) rest)
      exact ih (agree_ctxDispatch h a)

theorem dispatch_queue_eq (m : Store S A D T) (a : A) :
    (m.dispatch a).queue
      = if m.closed then m.queue
        else if m.senderParked then m.queue else m.queue ++ [a] := by
  rw [dispatch_eq]; split; · rfl
  split <;> rfl

theorem dispatch_senderParked_eq (m : Store S A D T) (a : A) :
    (m.dispatch a).senderParked
      = if m.closed then m.senderParked
        else if m.senderParked then m.senderParked
        else parkAfter m.capacity (m.queue ++ [a]).length := by
  rw [dispatch_eq]; split; · rfl
  split <;> rfl

theorem dispatch_debugAssertFailed_eq (m : Store S A D T) (a : A) :
    (m.dispatch a).debugAssertFailed
      = if m.closed then m.debugAssertFailed
        else if m.senderParked then true else m.debugAssertFailed := by
  rw [dispatch_eq]; split; · rfl
  split <;> rfl

theorem agree_dispatch {m1 m2 : Store S A D T} (h : Agree m1 m2) (a : A) :
    Agree (m1.dispatch a) (m2.dispatch a) := by
  obtain ⟨h1, h2, h3, h4, h5, h6, h7, h8⟩ := h
  exact ⟨by rw [dispatch_state, dispatch_state]; exact h1,
         by rw [dispatch_queue_eq, dispatch_queue_eq, h2, h3, h4],
         by rw [dispatch_senderParked_eq, dispatch_senderParked_eq, h2, h3, h4, h6],
         by rw [dispatch_closed, dispatch_closed]; exact h4,
         by rw [dispatch_debugAssertFailed_eq, dispatch_debugAssertFailed_eq, h3, h4, h5],
         by rw [dispatch_capacity, dispatch_capacity]; exact h6,
         by rw [dispatch_reducer, dispatch_reducer]; exact h7,
         by rw [dispatch_deps, dispatch_deps]; exact h8⟩

theorem agree_dispatchAll (as : List A) {m1 m2 : Store S A D T} (h : Agree m1 m2) :
    Agree (m1.dispatchAll as) (m2.dispatchAll as) := by
  induction as generalizing m1 m2 with
  | nil => exact h
  | cons a rest ih =>
      show Agree ((m1.dispatch a).dispatchAll rest) ((m2.dispatch a).dispatchAll rest)
      exact ih (agree_dispatch h a)

theorem agree_step [DecidableEq S] [DecidableEq T] {m1 m2 : Store S A D T}
    (h : Agree m1 m2) : Agree m1.step m2.step := by
  obtain ⟨h1, h2, h3, h4, h5, h6, h7, h8⟩ := h
  cases hq : m1.queue with
  | nil =>
      have hq2 : m2.queue = [] := by rw [← h2]; exact hq
      rw [step_eq_nil m1 hq, step_eq_nil m2 hq2]
      exact ⟨h1, h2, h3, h4, h5, h6, h7, h8⟩
  | cons a rest =>
      have hq2 : m2.queue = a :: rest := by rw [← h2]; exact hq
      have hr : m1.reducer m1.state a = m2.reducer m2.state a := by rw [h7, h1]
      have h0 : Agree { m1 with queue := rest, senderParked := false }
          { m2 with queue := rest, senderParked := false } :=
        ⟨h1, rfl, rfl, h4, h5, h6, h7, h8⟩
      have hcm : Agree
          (Store.commit { m1 with queue := rest, senderParked := false }
            (m1.reducer m1.state a).1)
          (Store.commit { m2 with queue := rest, senderParked := false }
            (m2.reducer m2.state a).1) := by
        rw [hr]
        exact agree_commit h0 _
      cases he : (m1.reducer m1.state a).2.inner with
      | none =>
          have he2 : (m2.reducer m2.state a).2.inner = Option.none := by
            rw [← hr]; exact he
          rw [step_eq_cons_none m1 a rest hq he, step_eq_cons_none m2 a rest hq2 he2]
          exact hcm
      | some f =>
          have he2 : (m2.reducer m2.state a).2.inner = Option.some f := by
            rw [← hr]; exact he
          rw [step_eq_cons_some m1 a rest f hq he, step_eq_cons_some m2 a rest f hq2 he2]
          have hd : f m1.deps = f m2.deps := by rw [h8]
          rw [hd]
          exact agree_foldlCtx _ hcm

theorem agree_drain [DecidableEq S] [DecidableEq T] (fuel : Nat) {m1 m2 : Store S A D T}
    (h : Agree m1 m2) : Agree (Store.drain fuel m1) (Store.drain fuel m2) := by
  induction fuel generalizing m1 m2 with
  | zero => exact h
  | succ n ih =>
      unfold Store.drain
      rw [h.2.1]
      split
      · exact h
      · exact ih (agree_step h)

/-- C5: `disconnect()` severs the watch scope. After disconnecting a store
(resp. a reader) watch scope, no watcher that was registered under it is
touched by any subsequent dispatching and draining; the state evolution —
and hence `get()` — is exactly that of the never-disconnected store; and
a new watcher registered after the disconnect is live: a subsequent
commit of a changed value delivers exactly that value to it. -/
theorem disconnect_severs [DecidableEq S] [DecidableEq T]
    (m : Store S A D T) (as : List A) (fuel : Nat) (s' : S) :
    ((Store.drain fuel ((m.disconnect).dispatchAll as)).storeWatchers
        = (m.disconnect).storeWatchers)
      ∧ ((Store.drain fuel ((m.readerDisconnect).dispatchAll as)).readerWatchers
          = (m.readerDisconnect).readerWatchers)
      ∧ ((Store.drain fuel ((m.disconnect).dispatchAll as)).get
          = (Store.drain fuel (m.dispatchAll as)).get)
      ∧ (s' ≠ m.state →
          ((((m.disconnect).watch).commit s').storeWatchers.getLast?).map Watcher.delivered
            = Option.some [s']) := by
  refine ⟨?_, ?_, ?_, ?_⟩
  · have hin : ∀ w ∈ (m.disconnect).storeWatchers, w.active = false := by
      intro w hw
      rcases List.mem_map.mp hw with ⟨w0, _, rfl⟩
      rfl
    have hin2 : ∀ w ∈ ((m.disconnect).dispatchAll as).storeWatchers, w.active = false := by
      rw [dispatchAll_storeWatchers]
      exact hin
    rw [drain_storeWatchers_inactive fuel _ hin2, dispatchAll_storeWatchers]
  · have hin : ∀ w ∈ (m.readerDisconnect).readerWatchers, w.active = false := by
      intro w hw
      rcases List.mem_map.mp hw with ⟨w0, _, rfl⟩
      rfl
    have hin2 : ∀ w ∈ ((m.readerDisconnect).dispatchAll as).readerWatchers,
        w.active = false := by
      rw [dispatchAll_readerWatchers]
      exact hin
    rw [drain_readerWatchers_inactive fuel _ hin2, dispatchAll_readerWatchers]
  · have hag : Agree (m.disconnect) m := ⟨rfl, rfl, rfl, rfl, rfl, rfl, rfl, rfl⟩
    exact (agree_drain fuel (agree_dispatchAll as hag)).1
  · intro hne
    rw [commit_storeWatchers]
    have hne2 : ¬ s' = ((m.disconnect).watch).state := hne
    rw [if_neg hne2]
    show (((m.disconnect).storeWatchers ++ [_]).map (notifyWatcher s')).getLast?.map
        Watcher.delivered = _
    rw [List.map_append, List.map_singleton, List.getLast?_concat]
    show Option.some (notifyWatcher s'
        { active := true, lastSeen := m.state, delivered := [] }).delivered = _
    unfold notifyWatcher
    rw [if_pos rfl, if_neg hne]
    rfl


/-- Witness for `disconnect_severs`: a counter store with one registered
watcher, disconnected, then dispatched into; and a rewatch receiving a
changed commit. -/
theorem disconnect_severs_witness :
    ((Store.drain 1 ((counterStoreW.disconnect).dispatchAll [1])).storeWatchers
        = (counterStoreW.disconnect).storeWatchers)
      ∧ ((((counterStoreW.disconnect).watch.commit 5).storeWatchers.getLast?).map
            Watcher.delivered = Option.some [5]) := by
  refine ⟨(disconnect_severs counterStoreW [1] 1 5).1,
          (disconnect_severs counterStoreW [1] 1 5).2.2.2 (by decide)⟩

/-! ### C6: dispatch never blocks and never returns an error -/

/-- C6: `dispatch` is total and error-free for the caller. After
`shutdown()` closes the queue, a dispatch (on the store handle or on an
effect's `Context`) is silently discarded — the model is unchanged and no
assertion trips. When the queue is full, the action is dropped and only
the debug-build assertion in `handle_dispatch_result` records it; the
state is untouched and nothing is returned to the caller. -/
theorem dispatch_never_errors (m : Store S A D T) (a : A) :
    ((m.shutdown).dispatch a = m.shutdown)
      ∧ ((m.shutdown).ctxDispatch a = m.shutdown)
      ∧ (m.closed = false → m.senderParked = true →
          (m.dispatch a).queue = m.queue ∧ (m.dispatch a).debugAssertFailed = true
            ∧ (m.dispatch a).state = m.state) := by
  refine ⟨?_, ?_, ?_⟩
  · exact dispatch_eq_closed (m.shutdown) a rfl
  · rw [ctxDispatch_eq]
    exact if_pos rfl
  · intro h1 h2
    rw [dispatch_eq_full m a h1 h2]
    exact ⟨rfl, rfl, rfl⟩


/-- Witness for `dispatch_never_errors` at a concrete full store. -/
theorem dispatch_never_errors_witness :
    ((fullCounterStore.shutdown).dispatch 2 = fullCounterStore.shutdown)
      ∧ ((fullCounterStore.dispatch 2).queue = fullCounterStore.queue
          ∧ (fullCounterStore.dispatch 2).debugAssertFailed = true
          ∧ (fullCounterStore.dispatch 2).state = fullCounterStore.state) := by
  refine ⟨(dispatch_never_errors fullCounterStore 2).1,
          (dispatch_never_errors fullCounterStore 2).2.2 (by decide) (by decide)⟩

/-! ### C9: effects dispatch into the queue their reducer consumes -/

/-- C9: when the reducer loop processes an action whose effect dispatches
follow-up actions, those actions are appended (through the effect's
`Context`, whose sender is a clone of the store's own channel sender) to
the very queue the loop consumes, and every later drain keeps processing
with that same reducer. -/
theorem effect_context_same_queue [DecidableEq S] [DecidableEq T]
    (m : Store S A D T) (a : A) (rest : List A) (f : D → List A)
    (hq : m.queue = a :: rest)
    (he : (m.reducer m.state a).2.inner = Option.some f)
    (hc : m.closed = false) :
    (m.step).queue = rest ++ f m.deps
      ∧ (m.step).reducer = m.reducer
      ∧ (∀ fuel, (Store.drain fuel (m.step)).reducer = m.reducer) := by
  refine ⟨?_, step_reducer m, ?_⟩
  · rw [step_eq_cons_some m a rest f hq he]
    have hc2 : (Store.commit { m with queue := rest, senderParked := false }
        (m.reducer m.state a).1).closed = false := by
      rw [commit_closed]; exact hc
    rw [foldlCtx_queue _ _ hc2, commit_queue]
  · intro fuel
    rw [drain_reducer, step_reducer]


/-- Witness for `effect_context_same_queue`: processing `3` under
`chainReducer` leaves exactly the effect-dispatched `2` in the queue. -/
theorem effect_context_same_queue_witness :
    (chainStoreDispatched.step).queue = [] ++ (fun _ => [(3 : Int) - 1]) ()
      ∧ (chainStoreDispatched.step).reducer = chainStoreDispatched.reducer := by
  have h := effect_context_same_queue chainStoreDispatched 3 []
    (fun _ => [(3 : Int) - 1]) (by decide) rfl rfl
  exact ⟨h.1, h.2.1⟩

/-! ### C10: context dispatch never observes a full queue -/

/-- C10: `Context::dispatch` clones the channel sender before every
`try_send`, and a fresh clone of the futures bounded sender carries its
own guaranteed slot (it has never parked), so the send never fails with a
"full" error regardless of the configured bound or the buffered backlog:
the debug assertion never trips through this path, and on an open channel
the action is always appended. -/
theorem ctx_dispatch_never_full (m : Store S A D T) (a : A) :
    ((chanTrySend m.closed false m.queue a).1 ≠ SendResult.errFull)
      ∧ ((m.ctxDispatch a).debugAssertFailed = m.debugAssertFailed)
      ∧ (m.closed = false → (m.ctxDispatch a).queue = m.queue ++ [a]) := by
  refine ⟨?_, ctxDispatch_debugAssertFailed m a, ?_⟩
  · unfold chanTrySend
    split
    · simp
    · simp
  · intro h
    rw [ctxDispatch_queue]
    simp [h]

/-- Witness for `ctx_dispatch_never_full`: a context dispatch into a store
whose own handle is parked on a zero-capacity queue still succeeds. -/
theorem ctx_dispatch_never_full_witness :
    (fullCounterStore.ctxDispatch 7).queue = fullCounterStore.queue ++ [7] :=
  (ctx_dispatch_never_full fullCounterStore 7).2.2 (by decide)
